import Mathlib

/-! Verification of the decision components of the Salla Price Optimizer.

Each definition is a shallow embedding of a function of the repository.
Python floats are modelled as exact rationals, Python exceptions as
`Except`, and Python dictionaries/lists as Lean structures and lists.
-/

/-- Embedding of `get_risk_level` from `src/utils.py` (lines 156-172):
risk bucket computed from the profit-margin percentage and the
price-change percentage.  The function takes no competitor count. -/
def get_risk_level (margin_percentage price_change_percentage : ℚ) : String :=
  if 15 < margin_percentage ∧ |price_change_percentage| < 10 then "Low"
  else if 5 ≤ margin_percentage ∧ |price_change_percentage| ≤ 20 then "Medium"
  else "High"

/-- Risk classifier as the spec (§4.4) words it, written for comparison with
`get_risk_level`: margin from suggested and cost price, relative price
change from suggested and current price, validated-competitor count `n`;
the High disjunction is checked first (High takes precedence). -/
def spec_risk_level (current_price suggested_price cost_price : ℚ) (n : ℕ) : String :=
  let m := (suggested_price - cost_price) / cost_price * 100
  let change := |suggested_price - current_price| / current_price
  if m < 10 ∨ 20/100 < change ∨ n = 0 then "High"
  else if 20 < m ∧ change ≤ 10/100 ∧ 2 ≤ n then "Low"
  else "Medium"

/-- Round a rational to the nearest integer with ties going to the even
integer — the tie rule of Python's builtin `round`. -/
def roundHalfEven (x : ℚ) : ℤ :=
  if x - ⌊x⌋ < 1/2 then ⌊x⌋
  else if 1/2 < x - ⌊x⌋ then ⌊x⌋ + 1
  else if ⌊x⌋ % 2 = 0 then ⌊x⌋ else ⌊x⌋ + 1

/-- Python's `round(x, 2)` on an exact rational. -/
def pyRound2 (x : ℚ) : ℚ := (roundHalfEven (x * 100) : ℚ) / 100

/-- The dictionary returned by `calculate_profit_margin`. -/
structure MarginResult where
  margin_percentage : ℚ
  margin_amount : ℚ
  deriving DecidableEq, Repr

/-- Embedding of `calculate_profit_margin` from `src/utils.py` (lines
120-140); the Python `ValueError` is the `Except.error` branch, and the
two returned fields are rounded with `round(_, 2)`. -/
def calculate_profit_margin (selling_price cost_price : ℚ) : Except String MarginResult :=
  if cost_price ≤ 0 then Except.error "Cost price must be greater than 0"
  else
    let margin_amount := selling_price - cost_price
    let margin_percentage := margin_amount / cost_price * 100
    Except.ok ⟨pyRound2 margin_percentage, pyRound2 margin_amount⟩

/-- Python's `a in b` on lists of characters: `listIsPre a b` is "a is an
initial segment of b". -/
def listIsPre : List Char → List Char → Bool
  | [], _ => true
  | _ :: _, [] => false
  | a :: as, b :: bs => a == b && listIsPre as bs

/-- Python's substring test `needle in haystack` on character lists. -/
def listHasSub (needle : List Char) : List Char → Bool
  | [] => needle.isEmpty
  | c :: rest => listIsPre needle (c :: rest) || listHasSub needle rest

/-- Python's substring test `needle in haystack` on strings. -/
def strIn (needle haystack : String) : Bool :=
  listHasSub needle.data haystack.data

/-- Python's `str.lower()`: lowercase every character (the strings the
searcher handles are ASCII or Arabic, on which this agrees with
Python). -/
def pyLower (s : String) : String :=
  String.mk (s.data.map Char.toLower)

/-- The `CompetitorResult` dataclass of `src/tools/market_search.py`
(lines 16-25), with its field defaults. -/
structure CompetitorResult where
  store_name : String
  product_name : String
  price : ℚ
  url : String
  currency : String := "SAR"
  is_valid : Bool := true
  confidence_score : ℚ := 0
  deriving DecidableEq, Repr

/-- The `domain_mapping` dictionary of `_extract_store_name`
(`src/tools/market_search.py` lines 133-150), in insertion order. -/
def domain_mapping : List (String × String) :=
  [("noon.com", "Noon"), ("souq.com", "Souq"), ("amazon.sa", "Amazon KSA"),
   ("jarir.com", "Jarir"), ("extra.com", "eXtra"), ("lulu.com", "Lulu"),
   ("carrefour.com", "Carrefour"), ("danube.com.sa", "Danube")]

/-- Embedding of `_extract_store_name` (`src/tools/market_search.py`
lines 133-150): the first mapped domain that is a substring of the
lowercased URL. -/
def extract_store_name (url : String) : Option String :=
  (domain_mapping.find? (fun p => strIn p.1 (pyLower url))).map (fun p => p.2)

/-- Embedding of `_extract_price` (`src/tools/market_search.py` lines
152-178).  The regex layer is abstracted: `candidates` is the list of the
first numeric match of each SAR pattern on the searched text, in pattern
order; the function returns the first candidate passing the range check
`1 <= price <= 50000` of line 173, and `none` when no candidate passes. -/
def extract_price : List ℚ → Option ℚ
  | [] => none
  | price :: rest =>
    if 1 ≤ price ∧ price ≤ 50000 then some price else extract_price rest

/-- The `trusted_domains` list of `_calculate_confidence` (line 189). -/
def trusted_domains : List String := ["noon.com", "jarir.com", "extra.com", "amazon.sa"]

/-- The `price_indicators` list of `_calculate_confidence` (line 194). -/
def price_indicators : List String := ["ر.س", "SAR", "ريال", "price", "سعر"]

/-- The `product_indicators` list of `_calculate_confidence` (line 199). -/
def product_indicators : List String := ["buy", "شراء", "product", "منتج", "/p/", "/product/"]

/-- Embedding of `_calculate_confidence` (`src/tools/market_search.py`
lines 180-203): accumulate 0.4/0.3/0.2/0.1 for the four signals, then
clamp with `min(score, 1.0)`. -/
def calculate_confidence (title content product_name url : String) : ℚ :=
  min
    ((0 : ℚ)
      + (if strIn (pyLower product_name) (pyLower title) then 4/10 else 0)
      + (if trusted_domains.any (fun d => strIn d (pyLower url)) then 3/10 else 0)
      + (if price_indicators.any (fun i => strIn i (pyLower (title ++ content))) then 2/10 else 0)
      + (if product_indicators.any (fun i => strIn i (pyLower (title ++ url))) then 1/10 else 0))
    1

/-- One raw Tavily search result as `_parse_search_result` consumes it:
its url, title and content, plus the abstracted regex layer for
`_extract_price` (first numeric match per SAR pattern found in
`title + " " + content`). -/
structure RawSearchResult where
  url : String
  title : String
  content : String
  price_candidates : List ℚ
  deriving DecidableEq, Repr

/-- Embedding of `_parse_search_result` (`src/tools/market_search.py`
lines 100-131): drop the result when no store name or no in-range price is
extracted; otherwise build a `CompetitorResult` whose validity flag is
`confidence > 0.3` (the minimum-confidence threshold of line 126). -/
def parse_search_result (result : RawSearchResult) (product_name : String) :
    Option CompetitorResult :=
  match extract_store_name result.url with
  | none => none
  | some store_name =>
    match extract_price result.price_candidates with
    | none => none
    | some price =>
      let confidence := calculate_confidence result.title result.content product_name result.url
      some { store_name := store_name, product_name := result.title, price := price,
             url := result.url, confidence_score := confidence,
             is_valid := decide (3/10 < confidence) }

/-- The accumulation loop of `search_competitors` (`src/tools/market_search.py`
lines 69-72): parsed results whose validity flag is set, kept in arrival
order. -/
def valid_results (product_name : String) (raw : List RawSearchResult) :
    List CompetitorResult :=
  raw.filterMap (fun r =>
    match parse_search_result r product_name with
    | some cr => if cr.is_valid then some cr else none
    | none => none)

/-- The comparison `search_competitors` sorts by (line 79): descending
`confidence_score`; Python's stable `list.sort(key=…, reverse=True)` keeps
the input order of equal keys, as `List.insertionSort` with this relation
does. -/
def conf_ge (a b : CompetitorResult) : Prop :=
  b.confidence_score ≤ a.confidence_score

instance : DecidableRel conf_ge :=
  fun a b => inferInstanceAs (Decidable (b.confidence_score ≤ a.confidence_score))

/-- Embedding of `SaudiMarketSearcher.search_competitors`
(`src/tools/market_search.py` lines 43-80): the surviving observations
are sorted by descending confidence score and truncated to
`max_results`.  The network layer is abstracted: `raw` is the
concatenation of the per-query Tavily results, in arrival order. -/
def search_competitors (product_name : String) (raw : List RawSearchResult)
    (max_results : ℕ) : List CompetitorResult :=
  ((valid_results product_name raw).insertionSort conf_ge).take max_results

/-- Decorate each list element with its position, starting at `i`:
`decorate 0 l` pairs every observation with its 0-based index in `l`. -/
def decorate (i : ℕ) : List CompetitorResult → List (ℕ × CompetitorResult)
  | [] => []
  | a :: l => (i, a) :: decorate (i + 1) l

/-- The total order realized by Python's stable
`list.sort(key=confidence, reverse=True)` on position-decorated
observations: strictly higher confidence first, and the input position
(ascending) breaking equal-confidence ties.  A `declex`-sorted
permutation of the decorated input is unique, so sortedness under
`declex` pins down both the descending order and the tie order. -/
def declex (a b : ℕ × CompetitorResult) : Prop :=
  b.2.confidence_score < a.2.confidence_score ∨
    (a.2.confidence_score = b.2.confidence_score ∧ a.1 ≤ b.1)

instance : DecidableRel declex := fun _ _ =>
  inferInstanceAs (Decidable (_ ∨ _ ∧ _))

instance : IsTrans (ℕ × CompetitorResult) declex :=
  ⟨by
    rintro a b c (h₁ | ⟨e₁, i₁⟩) (h₂ | ⟨e₂, i₂⟩)
    · exact Or.inl (h₂.trans h₁)
    · exact Or.inl (e₂ ▸ h₁)
    · exact Or.inl (e₁ ▸ h₂)
    · exact Or.inr ⟨e₁.trans e₂, i₁.trans i₂⟩⟩

instance : IsTotal (ℕ × CompetitorResult) declex :=
  ⟨by
    intro a b
    rcases lt_trichotomy a.2.confidence_score b.2.confidence_score with h | h | h
    · exact Or.inr (Or.inl h)
    · rcases Nat.le_total a.1 b.1 with hi | hi
      · exact Or.inl (Or.inr ⟨h, hi⟩)
      · exact Or.inr (Or.inr ⟨h.symm, hi⟩)
    · exact Or.inl (Or.inl h)⟩

/-- One competitor entry of `MOCK_COMPETITOR_DATA` or of the random
fallback branch (`src/mokes/salla_api.py`). -/
structure MockCompetitor where
  store_name : String
  price : ℚ
  url : String
  is_valid : Bool
  deriving DecidableEq, Repr

/-- The `MOCK_COMPETITOR_DATA` dictionary (`src/mokes/salla_api.py`
lines 118-131), in insertion order. -/
def MOCK_COMPETITOR_DATA : List (String × List MockCompetitor) :=
  [("بطاقة شحن سوا 100",
    [⟨"Noon", 102, "https://noon.com/sawa-100", true⟩,
     ⟨"Jarir", 104, "https://jarir.com/sawa-card-100", true⟩,
     ⟨"Extra", 1035/10, "https://extra.com/sawa-100-sar", true⟩,
     ⟨"Amazon KSA", 1015/10, "https://amazon.sa/sawa-recharge", true⟩]),
   ("iPhone 15 Pro",
    [⟨"Noon", 4199, "https://noon.com/iphone-15-pro", true⟩,
     ⟨"Jarir", 4250, "https://jarir.com/iphone-15-pro-256", true⟩,
     ⟨"Extra", 4299, "https://extra.com/iphone-15-pro", true⟩,
     ⟨"Amazon KSA", 4180, "https://amazon.sa/iphone-15-pro", true⟩])]

/-- The match test of `get_mock_competitor_data` (line 136): either
lowercased name is a substring of the other. -/
def mock_match (product_name key : String) : Bool :=
  strIn (pyLower product_name) (pyLower key) || strIn (pyLower key) (pyLower product_name)

/-- Embedding of `get_mock_competitor_data` (`src/mokes/salla_api.py`
lines 133-144).  The three `random.uniform(50, 500)` calls of the
no-match fallback branch are modelled by the explicit draw triple
`draws`. -/
def get_mock_competitor_data (product_name : String) (draws : ℚ × ℚ × ℚ) :
    List MockCompetitor :=
  match MOCK_COMPETITOR_DATA.find? (fun p => mock_match product_name p.1) with
  | some p => p.2
  | none =>
    [⟨"Noon", draws.1, "https://noon.com/product", true⟩,
     ⟨"Jarir", draws.2.1, "https://jarir.com/product", true⟩,
     ⟨"Extra", draws.2.2, "https://extra.com/product", true⟩]

/-- One stored product of `MockSallaAPI` (`src/mokes/salla_api.py` lines
13-39); `amount` is the nested `price.amount`, `currency` the nested
`price.currency`. -/
structure MockProduct where
  id : String
  name : String
  amount : ℚ
  currency : String
  cost_price : ℚ
  status : String
  sku : String
  deriving DecidableEq, Repr

/-- The three products seeded by `MockSallaAPI.__init__`, in dict
insertion order. -/
def initial_products : List MockProduct :=
  [⟨"12345", "بطاقة شحن سوا 100 ريال", 105, "SAR", 95, "active", "STC-100-SAR"⟩,
   ⟨"67890", "iPhone 15 Pro 256GB", 4299, "SAR", 3800, "active", "IPHONE-15-PRO-256"⟩,
   ⟨"11111", "Samsung Galaxy S24 Ultra 512GB", 3999, "SAR", 3500, "active", "SAMSUNG-S24-ULTRA-512"⟩]

/-- The `data` object of a successful price-update response. -/
structure UpdateData where
  id : String
  name : String
  old_price : ℚ
  new_price : ℚ
  updated_at : String
  deriving DecidableEq, Repr

/-- The response dictionary of `update_product_price`. -/
structure UpdateResponse where
  status : ℕ
  success : Bool
  data : Option UpdateData
  error : Option String
  deriving DecidableEq, Repr

/-- Embedding of `MockSallaAPI.update_product_price`
(`src/mokes/salla_api.py` lines 92-115): scan the stored products in
insertion order; on the first id match set that product's `price.amount`
to `new_price` and return the 200 response carrying the previous amount
as `old_price`; when nothing matches return the 404 response.  The result
pairs the response with the product store after the call. -/
def update_product_price : List MockProduct → String → ℚ → UpdateResponse × List MockProduct
  | [], _, _ => (⟨404, false, none, some "Product not found"⟩, [])
  | p :: rest, product_id, new_price =>
    if p.id = product_id then
      (⟨200, true, some ⟨product_id, p.name, p.amount, new_price, "2024-02-03T01:45:00Z"⟩, none⟩,
       { p with amount := new_price } :: rest)
    else
      let r := update_product_price rest product_id new_price
      (r.1, p :: r.2)

/-- Strategy menu of the spec (§4.3). -/
inductive Strategy where
  | undercut
  | priceMatch
  | premium
  | hold
  deriving DecidableEq, Repr

/-- The product-side inputs the Margin Validator consumes. -/
structure PricingContext where
  current_price : ℚ
  cost_price : ℚ
  category : Option String
  deriving DecidableEq, Repr

/-- Modelled from the spec: the §4.4 category margin floors.  The
executable engine is absent from the source — the decision logic lives in
an LLM prompt (`src/agents/analysis_agent.py` lines 52-90) — so the
floors follow the spec's words: the lower bound of each stated range,
0.10 for an unknown or missing category. -/
def category_min_margin : Option String → ℚ
  | some "dresses" => 15/100
  | some "accessories" => 20/100
  | some "basics" => 10/100
  | _ => 10/100

/-- Modelled from the spec: the §4.4 Margin Validator, absent as
executable code in the source (the prompt of
`src/agents/analysis_agent.py` lines 69-74 only states the rule to the
LLM).  A strategy whose suggested price fails the floor is overridden to
Hold at the current price. -/
def margin_validator (ctx : PricingContext) (strat : Strategy) (suggested : ℚ) :
    Strategy × ℚ :=
  if category_min_margin ctx.category ≤ (suggested - ctx.cost_price) / ctx.cost_price then
    (strat, suggested)
  else (Strategy.hold, ctx.current_price)

theorem roundHalfEven_close (y : ℚ) : |(roundHalfEven y : ℚ) - y| ≤ 1/2 := by
  have h0 : (⌊y⌋ : ℚ) ≤ y := Int.floor_le y
  have h1 : y < ⌊y⌋ + 1 := Int.lt_floor_add_one y
  unfold roundHalfEven
  split_ifs with ha hb hc <;> rw [abs_le] <;> constructor <;> push_cast <;> linarith

theorem pyRound2_close (x : ℚ) : |pyRound2 x - x| ≤ 1/200 := by
  have h := roundHalfEven_close (x * 100)
  have hx : pyRound2 x - x = ((roundHalfEven (x * 100) : ℚ) - x * 100) / 100 := by
    unfold pyRound2; ring
  rw [hx, abs_div, abs_of_pos (show (0:ℚ) < 100 by norm_num)]
  linarith

/-- C1 (counterexample): at margin 25%, price change 5% (current 100,
suggested 105, cost 84) and zero validated competitors, the claim demands
High, but the code's risk scorer — which never sees the competitor
count — returns Low. -/
theorem get_risk_level_cex :
    get_risk_level 25 5 = "Low" ∧
    spec_risk_level 100 105 84 0 = "High" ∧
    (105 - 84) / 84 * 100 = (25 : ℚ) ∧
    |105 - 100| / 100 = (5 / 100 : ℚ) := by
  refine ⟨?_, ?_, by norm_num, by rw [abs_of_pos] <;> norm_num⟩
  · unfold get_risk_level
    rw [if_pos]
    constructor
    · norm_num
    · rw [abs_of_pos] <;> norm_num
  · unfold spec_risk_level
    rw [if_pos]
    exact Or.inr (Or.inr rfl)

/-- C1 (amended): the risk scorer takes only the margin percentage and the
price-change percentage (the validated-competitor count is not an input):
it returns Low iff margin > 15 and |change| < 10; otherwise Medium iff
margin >= 5 and |change| <= 20; otherwise High — the Low check is
evaluated first and takes precedence. -/
theorem get_risk_level_characterization (m c : ℚ) :
    (get_risk_level m c = "Low" ↔ 15 < m ∧ |c| < 10) ∧
    (get_risk_level m c = "Medium" ↔ ¬(15 < m ∧ |c| < 10) ∧ (5 ≤ m ∧ |c| ≤ 20)) ∧
    (get_risk_level m c = "High" ↔ ¬(15 < m ∧ |c| < 10) ∧ ¬(5 ≤ m ∧ |c| ≤ 20)) := by
  unfold get_risk_level
  split_ifs with h1 h2 <;> refine ⟨?_, ?_, ?_⟩ <;> simp_all

/-- C3 (counterexample): at selling price 100 and cost price 3 the exact
margin percentage is 9700/3 = 3233.33…, but the code returns the value
rounded to two decimals, 3233.33, which is not equal to the exact value —
`profit_margin_percentage` is not `(s − c)/c·100` exactly. -/
theorem calculate_profit_margin_cex :
    calculate_profit_margin 100 3 = Except.ok ⟨323333/100, 97⟩ ∧
    (323333/100 : ℚ) ≠ (100 - 3) / 3 * 100 := by
  constructor
  · unfold calculate_profit_margin pyRound2 roundHalfEven
    norm_num
  · norm_num

/-- C3 (amended): the margin computation returns the exact values rounded
to two decimal places: `margin_percentage = round2((s − c)/c·100)` and
`margin_amount = round2(s − c)`, each within 1/200 of the exact value,
recomputed from its two arguments. -/
theorem calculate_profit_margin_rounded (s c : ℚ) (h : 0 < c) :
    calculate_profit_margin s c =
      Except.ok ⟨pyRound2 ((s - c) / c * 100), pyRound2 (s - c)⟩ ∧
    |pyRound2 ((s - c) / c * 100) - (s - c) / c * 100| ≤ 1/200 ∧
    |pyRound2 (s - c) - (s - c)| ≤ 1/200 := by
  refine ⟨?_, pyRound2_close _, pyRound2_close _⟩
  unfold calculate_profit_margin
  rw [if_neg (not_le.mpr h)]

/-- C3 witness: the amended theorem applied at selling price 100, cost 80. -/
theorem calculate_profit_margin_rounded_witness :
    calculate_profit_margin 100 80 =
      Except.ok ⟨pyRound2 ((100 - 80) / 80 * 100), pyRound2 (100 - 80)⟩ ∧
    |pyRound2 ((100 - 80) / 80 * 100) - (100 - 80) / 80 * 100| ≤ 1/200 ∧
    |pyRound2 (100 - 80) - (100 - 80)| ≤ 1/200 :=
  calculate_profit_margin_rounded 100 80 (by norm_num)

/-- C4: the margin computation fails with the typed error exactly when its
cost-price argument is ≤ 0, and returns a normal result for every
cost price > 0 — a missing/non-positive cost price is never silently
defaulted. -/
theorem calculate_profit_margin_error_iff (s c : ℚ) :
    (calculate_profit_margin s c = Except.error "Cost price must be greater than 0" ↔ c ≤ 0) ∧
    ((∃ r, calculate_profit_margin s c = Except.ok r) ↔ 0 < c) := by
  unfold calculate_profit_margin
  split_ifs with h
  · refine ⟨iff_of_true rfl h, ?_⟩
    constructor
    · rintro ⟨r, hr⟩
      exact absurd hr (by simp)
    · intro hc
      exact absurd h (not_le.mpr hc)
  · refine ⟨?_, iff_of_true ⟨_, rfl⟩ (not_le.mp h)⟩
    constructor
    · intro hr
      exact absurd hr (by simp)
    · intro hc
      exact absurd hc h

/-- C5 (counterexample): the code's sanity check (line 173) is
`1 <= price <= 50000`, not `0 < price < 50000`: the boundary price 50000
is accepted though the claim rejects it, and the positive price 1/2 below
one currency unit is rejected though the claim accepts it. -/
theorem extract_price_cex :
    extract_price [50000] = some 50000 ∧ ¬ ((50000 : ℚ) < 50000) ∧
    extract_price [1/2] = none ∧ (0 : ℚ) < 1/2 ∧ (1/2 : ℚ) < 50000 := by
  refine ⟨?_, by norm_num, ?_, by norm_num, by norm_num⟩ <;> norm_num [extract_price]

/-- C5 (amended): the sanity check accepts an observed price iff
`1 ≤ price ≤ 50000` — both bounds inclusive, with lower bound 1 rather
than 0 — and any price the extractor returns came from the candidate list
and passes these bounds. -/
theorem extract_price_range (cands : List ℚ) (p : ℚ) :
    (extract_price cands = some p → p ∈ cands ∧ 1 ≤ p ∧ p ≤ 50000) ∧
    (extract_price [p] = some p ↔ 1 ≤ p ∧ p ≤ 50000) := by
  constructor
  · intro h
    induction cands with
    | nil => cases h
    | cons a rest ih =>
      by_cases hc : 1 ≤ a ∧ a ≤ 50000
      · rw [extract_price, if_pos hc] at h
        injection h with h
        subst h
        exact ⟨List.mem_cons_self a rest, hc.1, hc.2⟩
      · rw [extract_price, if_neg hc] at h
        obtain ⟨hm, h1, h2⟩ := ih h
        exact ⟨List.mem_cons_of_mem a hm, h1, h2⟩
  · constructor
    · intro h
      by_cases hc : 1 ≤ p ∧ p ≤ 50000
      · exact hc
      · rw [extract_price, if_neg hc] at h
        cases h
    · intro hc
      rw [extract_price, if_pos hc]

/-- C5 witness: the amended theorem applied to the singleton candidate
list [100]. -/
theorem extract_price_range_witness :
    ((100 : ℚ) ∈ [(100 : ℚ)] ∧ (1 : ℚ) ≤ 100 ∧ (100 : ℚ) ≤ 50000) ∧
    (extract_price [(100 : ℚ)] = some 100 ↔ (1 : ℚ) ≤ 100 ∧ (100 : ℚ) ≤ 50000) :=
  ⟨(extract_price_range [100] 100).1 (by decide),
   (extract_price_range [100] 100).2⟩

/-- C6 (counterexample): a result from noon.com whose title does not
contain the product name and carries no price or product indicator gets
confidence exactly 0.3, and the code's strict test `confidence > 0.3`
(line 126) marks it invalid — an observation whose confidence exactly
meets the 0.3 threshold is dropped, though the claim says it passes. -/
theorem parse_search_result_cex :
    parse_search_result ⟨"https://noon.com/a", "x", "", [100]⟩ "y" =
      some { store_name := "Noon", product_name := "x", price := 100,
             url := "https://noon.com/a", currency := "SAR",
             is_valid := false, confidence_score := 3/10 } ∧
    (3 / 10 : ℚ) ≥ 3 / 10 := by
  refine ⟨?_, le_refl _⟩
  simp +decide [parse_search_result, extract_store_name, extract_price,
    calculate_confidence, min_def, domain_mapping] <;> norm_num

/-- C6 (amended): an observation built by the parser is kept iff its
computed confidence score strictly exceeds 0.3 — confidence exactly 0.3
is dropped (the threshold test is strict) — and the score is always the
one computed by `_calculate_confidence`, never absent. -/
theorem parse_search_result_threshold (r : RawSearchResult) (pn : String)
    (cr : CompetitorResult) (h : parse_search_result r pn = some cr) :
    (cr.is_valid = true ↔ 3/10 < cr.confidence_score) ∧
    cr.confidence_score = calculate_confidence r.title r.content pn r.url := by
  unfold parse_search_result at h
  rcases hs : extract_store_name r.url with _ | sn
  · rw [hs] at h
    exact absurd h (by simp)
  · rw [hs] at h
    rcases hp : extract_price r.price_candidates with _ | price
    · rw [hp] at h
      exact absurd h (by simp)
    · rw [hp] at h
      simp only [Option.some.injEq] at h
      subst h
      exact ⟨by simp, rfl⟩

/-- C6 witness: a fully matching jarir.com result parses to a kept
observation with confidence 1. -/
theorem parse_search_result_threshold_witness :
    ((⟨"Jarir", "super phone", 99, "https://jarir.com/p/1", "SAR", true, 1⟩ :
        CompetitorResult).is_valid = true ↔
      3/10 < (⟨"Jarir", "super phone", 99, "https://jarir.com/p/1", "SAR", true, 1⟩ :
        CompetitorResult).confidence_score) ∧
    (⟨"Jarir", "super phone", 99, "https://jarir.com/p/1", "SAR", true, 1⟩ :
        CompetitorResult).confidence_score =
      calculate_confidence "super phone" "price 99" "phone" "https://jarir.com/p/1" :=
  parse_search_result_threshold
    ⟨"https://jarir.com/p/1", "super phone", "price 99", [99]⟩ "phone"
    ⟨"Jarir", "super phone", 99, "https://jarir.com/p/1", "SAR", true, 1⟩
    (by simp +decide [parse_search_result, extract_store_name, extract_price,
      calculate_confidence, min_def, domain_mapping] <;> norm_num)

/-- C7 (counterexample): two surviving observations with confidences 0.5
then 0.9 arrive in that order, but `search_competitors` sorts by
descending confidence (line 79), so the returned list reverses the input
order of the survivors. -/
theorem search_competitors_cex :
    (search_competitors "phone"
        [⟨"https://noon.com/x", "gadget price", "", [100]⟩,
         ⟨"https://noon.com/y", "phone price", "", [200]⟩] 10).map
        (fun cr => cr.confidence_score) = [9/10, 1/2] ∧
    (valid_results "phone"
        [⟨"https://noon.com/x", "gadget price", "", [100]⟩,
         ⟨"https://noon.com/y", "phone price", "", [200]⟩]).map
        (fun cr => cr.confidence_score) = [1/2, 9/10] ∧
    search_competitors "phone"
        [⟨"https://noon.com/x", "gadget price", "", [100]⟩,
         ⟨"https://noon.com/y", "phone price", "", [200]⟩] 10 ≠
      valid_results "phone"
        [⟨"https://noon.com/x", "gadget price", "", [100]⟩,
         ⟨"https://noon.com/y", "phone price", "", [200]⟩] := by
  have h1 : parse_search_result ⟨"https://noon.com/x", "gadget price", "", [100]⟩ "phone" =
      some ⟨"Noon", "gadget price", 100, "https://noon.com/x", "SAR", true, 1/2⟩ := by
    simp +decide [parse_search_result, extract_store_name, extract_price,
      calculate_confidence, min_def, domain_mapping] <;> norm_num
  have h2 : parse_search_result ⟨"https://noon.com/y", "phone price", "", [200]⟩ "phone" =
      some ⟨"Noon", "phone price", 200, "https://noon.com/y", "SAR", true, 9/10⟩ := by
    simp +decide [parse_search_result, extract_store_name, extract_price,
      calculate_confidence, min_def, domain_mapping] <;> norm_num
  have hv : valid_results "phone"
      [⟨"https://noon.com/x", "gadget price", "", [100]⟩,
       ⟨"https://noon.com/y", "phone price", "", [200]⟩] =
      [⟨"Noon", "gadget price", 100, "https://noon.com/x", "SAR", true, 1/2⟩,
       ⟨"Noon", "phone price", 200, "https://noon.com/y", "SAR", true, 9/10⟩] := by
    simp [valid_results, List.filterMap_cons, h1, h2]
  have hsort : List.insertionSort conf_ge
      [⟨"Noon", "gadget price", 100, "https://noon.com/x", "SAR", true, 1/2⟩,
       ⟨"Noon", "phone price", 200, "https://noon.com/y", "SAR", true, 9/10⟩] =
      [⟨"Noon", "phone price", 200, "https://noon.com/y", "SAR", true, 9/10⟩,
       ⟨"Noon", "gadget price", 100, "https://noon.com/x", "SAR", true, 1/2⟩] := by
    norm_num [List.insertionSort, List.orderedInsert, conf_ge]
  have hs : search_competitors "phone"
      [⟨"https://noon.com/x", "gadget price", "", [100]⟩,
       ⟨"https://noon.com/y", "phone price", "", [200]⟩] 10 =
      [⟨"Noon", "phone price", 200, "https://noon.com/y", "SAR", true, 9/10⟩,
       ⟨"Noon", "gadget price", 100, "https://noon.com/x", "SAR", true, 1/2⟩] := by
    unfold search_competitors
    rw [hv, hsort]
    rfl
  refine ⟨?_, ?_, ?_⟩
  · rw [hs]
    rfl
  · rw [hv]
    rfl
  · rw [hs, hv]
    intro heq
    have h := ((List.cons.injEq _ _ _ _).mp heq).1
    exact absurd (congrArg CompetitorResult.price h) (by norm_num)

theorem decorate_map_snd (i : ℕ) (l : List CompetitorResult) :
    (decorate i l).map Prod.snd = l := by
  induction l generalizing i with
  | nil => rfl
  | cons a t ih => simp [decorate, ih]

theorem decorate_le_fst (i : ℕ) (l : List CompetitorResult) :
    ∀ q ∈ decorate i l, i ≤ q.1 := by
  induction l generalizing i with
  | nil => intro q hq; cases hq
  | cons a t ih =>
    intro q hq
    rcases List.mem_cons.mp hq with rfl | hq
    · exact le_refl i
    · exact (Nat.le_succ i).trans (ih (i + 1) q hq)

theorem decorate_pairwise_fst (i : ℕ) (l : List CompetitorResult) :
    (decorate i l).Pairwise (fun p q => p.1 < q.1) := by
  induction l generalizing i with
  | nil => exact List.Pairwise.nil
  | cons a t ih =>
    refine List.pairwise_cons.mpr ⟨?_, ih (i + 1)⟩
    intro q hq
    exact Nat.lt_of_lt_of_le (Nat.lt_succ_self i) (decorate_le_fst (i + 1) t q hq)

theorem decorate_nodup_fst (i : ℕ) (l : List CompetitorResult) :
    ((decorate i l).map Prod.fst).Nodup := by
  have h := decorate_pairwise_fst i l
  exact List.pairwise_map.mpr (h.imp (fun hlt => Nat.ne_of_lt hlt))

theorem map_snd_orderedInsert (p : ℕ × CompetitorResult)
    (dl : List (ℕ × CompetitorResult)) (hlt : ∀ q ∈ dl, p.1 < q.1) :
    (List.orderedInsert declex p dl).map Prod.snd =
      List.orderedInsert conf_ge p.2 (dl.map Prod.snd) := by
  induction dl with
  | nil => rfl
  | cons q rest ih =>
    have hpq : p.1 < q.1 := hlt q (List.mem_cons_self q rest)
    by_cases hc : conf_ge p.2 q.2
    · have hd : declex p q := by
        rcases lt_or_eq_of_le hc with h | h
        · exact Or.inl h
        · exact Or.inr ⟨h.symm, hpq.le⟩
      simp only [List.orderedInsert, if_pos hd, if_pos hc, List.map]
    · have hd : ¬ declex p q := by
        rintro (h | ⟨h, _⟩)
        · exact hc h.le
        · exact hc (le_of_eq h.symm)
      simp only [List.orderedInsert, if_neg hd, if_neg hc, List.map]
      rw [ih (fun r hr => hlt r (List.mem_cons_of_mem q hr))]

theorem map_snd_insertionSort (dl : List (ℕ × CompetitorResult))
    (h : dl.Pairwise (fun p q => p.1 < q.1)) :
    (List.insertionSort declex dl).map Prod.snd =
      List.insertionSort conf_ge (dl.map Prod.snd) := by
  induction dl with
  | nil => rfl
  | cons p rest ih =>
    obtain ⟨hp, ht⟩ := List.pairwise_cons.mp h
    simp only [List.insertionSort, List.map]
    rw [map_snd_orderedInsert p _
        (fun q hq => hp q ((List.perm_insertionSort declex rest).mem_iff.mp hq)),
      ih ht]

theorem declex_sorted_perm_eq :
    ∀ {dl₁ dl₂ : List (ℕ × CompetitorResult)}, dl₁.Perm dl₂ →
      dl₁.Sorted declex → dl₂.Sorted declex → (dl₁.map Prod.fst).Nodup → dl₁ = dl₂ := by
  intro dl₁
  induction dl₁ with
  | nil =>
    intro dl₂ hp _ _ _
    exact hp.nil_eq
  | cons a t₁ ih =>
    intro dl₂ hp hs₁ hs₂ hnd
    cases dl₂ with
    | nil =>
      have := hp.length_eq
      simp at this
    | cons b t₂ =>
      by_cases hab : a = b
      · subst hab
        rw [ih hp.cons_inv hs₁.of_cons hs₂.of_cons
          ((List.nodup_cons.mp (by simpa using hnd)).2)]
      · have ha2 : a ∈ t₂ := by
          have hm := hp.mem_iff.mp (List.mem_cons_self a t₁)
          rcases List.mem_cons.mp hm with h | h
          · exact absurd h hab
          · exact h
        have hb1 : b ∈ t₁ := by
          have hm := hp.symm.mem_iff.mp (List.mem_cons_self b t₂)
          rcases List.mem_cons.mp hm with h | h
          · exact absurd h.symm hab
          · exact h
        have h₁ : declex a b := List.rel_of_sorted_cons hs₁ b hb1
        have h₂ : declex b a := List.rel_of_sorted_cons hs₂ a ha2
        exfalso
        rcases h₁ with h | ⟨hc₁, hi₁⟩
        · rcases h₂ with h' | ⟨hc₂, _⟩
          · exact absurd h' (lt_asymm h)
          · exact absurd h (hc₂ ▸ lt_irrefl _)
        · rcases h₂ with h' | ⟨hc₂, hi₂⟩
          · exact absurd h' (hc₁ ▸ lt_irrefl _)
          · have hfst : a.1 = b.1 := Nat.le_antisymm hi₁ hi₂
            have hmem : a.1 ∈ t₁.map Prod.fst :=
              hfst ▸ List.mem_map_of_mem Prod.fst hb1
            have hnot : a.1 ∉ t₁.map Prod.fst :=
              (List.nodup_cons.mp (by simpa using hnd)).1
            exact hnot hmem

/-- C7 (amended): `search_competitors` is deterministic and returns
exactly the surviving observations sorted by descending confidence score,
stably — equal scores keep their input order — and truncated to the first
`max_results` entries of that sorted list.  Formally: a `declex`-sorted
permutation of the position-decorated survivors exists, and for every
such permutation (which encodes both the descending order and the
ties-by-input-position rule) the output equals its undecoration truncated
to `max_results`; moreover the output is sorted by `conf_ge`, is a
sub-permutation of the survivors, and has length
`min max_results (number of survivors)`.  Input order is preserved only
among equal confidence scores, not in general. -/
theorem search_competitors_sorted (pn : String) (raw : List RawSearchResult) (k : ℕ) :
    (∃ dl : List (ℕ × CompetitorResult),
      dl.Perm (decorate 0 (valid_results pn raw)) ∧ dl.Sorted declex) ∧
    (∀ dl : List (ℕ × CompetitorResult),
      dl.Perm (decorate 0 (valid_results pn raw)) → dl.Sorted declex →
      search_competitors pn raw k = (dl.map Prod.snd).take k) ∧
    List.Sorted conf_ge (search_competitors pn raw k) ∧
    List.Subperm (search_competitors pn raw k) (valid_results pn raw) ∧
    (search_competitors pn raw k).length = min k (valid_results pn raw).length := by
  haveI : IsTotal CompetitorResult conf_ge :=
    ⟨fun a b => (le_total b.confidence_score a.confidence_score).elim Or.inl Or.inr⟩
  haveI : IsTrans CompetitorResult conf_ge :=
    ⟨fun _ _ _ h1 h2 => le_trans h2 h1⟩
  refine ⟨?_, ?_, ?_, ?_, ?_⟩
  · exact ⟨List.insertionSort declex (decorate 0 (valid_results pn raw)),
      List.perm_insertionSort declex _, List.sorted_insertionSort declex _⟩
  · intro dl hperm hsort
    have heq : dl = List.insertionSort declex (decorate 0 (valid_results pn raw)) :=
      declex_sorted_perm_eq (hperm.trans (List.perm_insertionSort declex _).symm)
        hsort (List.sorted_insertionSort declex _)
        ((hperm.map Prod.fst).nodup_iff.mpr (decorate_nodup_fst 0 _))
    rw [heq, map_snd_insertionSort _ (decorate_pairwise_fst 0 _), decorate_map_snd]
    rfl
  · exact List.Pairwise.sublist (List.take_sublist k _)
      (List.sorted_insertionSort conf_ge (valid_results pn raw))
  · exact ((List.take_sublist k _).subperm).trans
      (List.perm_insertionSort conf_ge (valid_results pn raw)).subperm
  · unfold search_competitors
    rw [List.length_take, List.length_insertionSort]

/-- C7 witness: the amended theorem applied to the two-result input of the
counterexample, with the concrete `declex`-sorted decorated permutation
[(1, conf 9/10), (0, conf 1/2)] of the survivors. -/
theorem search_competitors_sorted_witness :
    search_competitors "phone"
        [⟨"https://noon.com/x", "gadget price", "", [100]⟩,
         ⟨"https://noon.com/y", "phone price", "", [200]⟩] 10 =
      (([((1 : ℕ), (⟨"Noon", "phone price", 200, "https://noon.com/y", "SAR", true,
            9/10⟩ : CompetitorResult)),
         ((0 : ℕ), (⟨"Noon", "gadget price", 100, "https://noon.com/x", "SAR", true,
            1/2⟩ : CompetitorResult))]).map Prod.snd).take 10 := by
  have hv : valid_results "phone"
      [⟨"https://noon.com/x", "gadget price", "", [100]⟩,
       ⟨"https://noon.com/y", "phone price", "", [200]⟩] =
      [⟨"Noon", "gadget price", 100, "https://noon.com/x", "SAR", true, 1/2⟩,
       ⟨"Noon", "phone price", 200, "https://noon.com/y", "SAR", true, 9/10⟩] := by
    have h1 : parse_search_result ⟨"https://noon.com/x", "gadget price", "", [100]⟩ "phone" =
        some ⟨"Noon", "gadget price", 100, "https://noon.com/x", "SAR", true, 1/2⟩ := by
      simp +decide [parse_search_result, extract_store_name, extract_price,
        calculate_confidence, min_def, domain_mapping] <;> norm_num
    have h2 : parse_search_result ⟨"https://noon.com/y", "phone price", "", [200]⟩ "phone" =
        some ⟨"Noon", "phone price", 200, "https://noon.com/y", "SAR", true, 9/10⟩ := by
      simp +decide [parse_search_result, extract_store_name, extract_price,
        calculate_confidence, min_def, domain_mapping] <;> norm_num
    simp [valid_results, List.filterMap_cons, h1, h2]
  refine (search_competitors_sorted "phone" _ 10).2.1 _ ?_ ?_
  · rw [hv]
    exact List.Perm.swap _ _ _
  · refine List.sorted_cons.mpr ⟨?_, List.sorted_singleton _⟩
    intro b hb
    rcases List.mem_cons.mp hb with rfl | hb
    · exact Or.inl (by norm_num)
    · exact absurd hb (List.not_mem_nil b)

/-- C8 (counterexample): for a product name matching no mock entry, the
competitor data is built from `random.uniform(50, 500)` draws: two calls
with the identical product name but different draws (all inside
[50, 500]) return different data — the pipeline carries hidden
randomness, so two runs on an identical context need not agree. -/
theorem get_mock_competitor_data_cex :
    get_mock_competitor_data "widget" (50, 50, 50) ≠
      get_mock_competitor_data "widget" (51, 51, 51) ∧
    (50 : ℚ) ≤ 50 ∧ (50 : ℚ) ≤ 500 ∧ (50 : ℚ) ≤ 51 ∧ (51 : ℚ) ≤ 500 := by
  exact ⟨by decide, by norm_num, by norm_num, by norm_num, by norm_num⟩

/-- C8 (amended): determinism holds only for product names that match a
`MOCK_COMPETITOR_DATA` key (case-insensitive substring in either
direction): for those the returned competitor data is a function of the
product name alone; for any other name the three returned prices are
fresh random draws, so repeated calls need not agree. -/
theorem get_mock_competitor_data_deterministic (name : String) (d₁ d₂ : ℚ × ℚ × ℚ)
    (h : MOCK_COMPETITOR_DATA.any (fun p => mock_match name p.1) = true) :
    get_mock_competitor_data name d₁ = get_mock_competitor_data name d₂ := by
  rcases hf : MOCK_COMPETITOR_DATA.find? (fun p => mock_match name p.1) with _ | p
  · rw [List.find?_eq_none] at hf
    rw [List.any_eq_true] at h
    obtain ⟨x, hx, hpx⟩ := h
    exact absurd hpx (by simpa using hf x hx)
  · unfold get_mock_competitor_data
    rw [hf]

/-- C8 witness: the matched product "iPhone 15 Pro" gives identical data
under different draws. -/
theorem get_mock_competitor_data_deterministic_witness :
    get_mock_competitor_data "iPhone 15 Pro" (50, 60, 70) =
      get_mock_competitor_data "iPhone 15 Pro" (500, 400, 300) :=
  get_mock_competitor_data_deterministic "iPhone 15 Pro" (50, 60, 70) (500, 400, 300)
    (by decide)

/-- C9: the confidence computation always returns a score in the closed
interval [0, 1]: it accumulates only non-negative increments from 0 and
clamps with `min(score, 1.0)`. -/
theorem calculate_confidence_in_unit_interval (t c pn u : String) :
    0 ≤ calculate_confidence t c pn u ∧ calculate_confidence t c pn u ≤ 1 := by
  unfold calculate_confidence
  refine ⟨?_, min_le_right _ _⟩
  rw [le_min_iff]
  split_ifs <;> norm_num

theorem update_product_price_not_found (products : List MockProduct) (pid : String)
    (np : ℚ) (hall : ∀ p ∈ products, p.id ≠ pid) :
    update_product_price products pid np =
      (⟨404, false, none, some "Product not found"⟩, products) := by
  induction products with
  | nil => rfl
  | cons q rest ih =>
    have hq : q.id ≠ pid := hall q (by simp)
    have hr := ih (fun r hr => hall r (by simp [hr]))
    simp [update_product_price, hq, hr]

theorem update_product_price_found (l₁ : List MockProduct) (p : MockProduct)
    (l₂ : List MockProduct) (pid : String) (np : ℚ)
    (hl₁ : ∀ q ∈ l₁, q.id ≠ pid) (hp : p.id = pid) :
    update_product_price (l₁ ++ p :: l₂) pid np =
      (⟨200, true, some ⟨pid, p.name, p.amount, np, "2024-02-03T01:45:00Z"⟩, none⟩,
       l₁ ++ { p with amount := np } :: l₂) := by
  induction l₁ with
  | nil => simp [update_product_price, hp]
  | cons q rest ih =>
    have hq : q.id ≠ pid := hl₁ q (by simp)
    have hr := ih (fun r hr => hl₁ r (by simp [hr]))
    simp [update_product_price, hq, hr]

/-- C10: the mock price update is atomic at its error branch: when no
stored product carries the requested id it returns the 404 failure and
leaves every stored product unchanged; when a product matches (first
match in insertion order, ids being unique in the seeded store), exactly
that product's price amount is set to `new_price`, the returned
`old_price` is that product's amount before the call, and all other
products are unchanged. -/
theorem update_product_price_spec (products : List MockProduct) (pid : String) (np : ℚ) :
    ((∀ p ∈ products, p.id ≠ pid) →
      update_product_price products pid np =
        (⟨404, false, none, some "Product not found"⟩, products)) ∧
    (∀ l₁ p l₂, products = l₁ ++ p :: l₂ → (∀ q ∈ l₁, q.id ≠ pid) → p.id = pid →
      update_product_price products pid np =
        (⟨200, true, some ⟨pid, p.name, p.amount, np, "2024-02-03T01:45:00Z"⟩, none⟩,
         l₁ ++ { p with amount := np } :: l₂)) := by
  constructor
  · exact update_product_price_not_found products pid np
  · intro l₁ p l₂ heq h1 h2
    rw [heq]
    exact update_product_price_found l₁ p l₂ pid np h1 h2

/-- C10 witness: on the seeded store, an unknown id returns 404 and keeps
the store intact, and updating product 12345 to 99.99 (the module's
`__main__` example) rewrites only that product's amount and reports the
old amount 105. -/
theorem update_product_price_spec_witness :
    update_product_price initial_products "nope" 42 =
      (⟨404, false, none, some "Product not found"⟩, initial_products) ∧
    update_product_price initial_products "12345" (9999/100) =
      (⟨200, true,
        some ⟨"12345", "بطاقة شحن سوا 100 ريال", 105, 9999/100, "2024-02-03T01:45:00Z"⟩, none⟩,
       [⟨"12345", "بطاقة شحن سوا 100 ريال", 9999/100, "SAR", 95, "active", "STC-100-SAR"⟩,
        ⟨"67890", "iPhone 15 Pro 256GB", 4299, "SAR", 3800, "active", "IPHONE-15-PRO-256"⟩,
        ⟨"11111", "Samsung Galaxy S24 Ultra 512GB", 3999, "SAR", 3500, "active",
         "SAMSUNG-S24-ULTRA-512"⟩]) := by
  constructor
  · exact (update_product_price_spec initial_products "nope" 42).1 (by decide)
  · exact (update_product_price_spec initial_products "12345" (9999/100)).2
      [] ⟨"12345", "بطاقة شحن سوا 100 ريال", 105, "SAR", 95, "active", "STC-100-SAR"⟩
      [⟨"67890", "iPhone 15 Pro 256GB", 4299, "SAR", 3800, "active", "IPHONE-15-PRO-256"⟩,
       ⟨"11111", "Samsung Galaxy S24 Ultra 512GB", 3999, "SAR", 3500, "active",
        "SAMSUNG-S24-ULTRA-512"⟩]
      rfl (by simp) rfl

/-- C2 (counterexample): context current=100, cost=95, no category (floor
0.10), strategy price 88 — the spec's own scenario 2: the validator
overrides to Hold at the current price 100, and the emitted decision's
margin (100−95)/95 ≈ 5.3% is below the 10% floor, so an emitted decision
can violate the margin floor. -/
theorem margin_validator_cex :
    margin_validator ⟨100, 95, none⟩ Strategy.undercut 88 = (Strategy.hold, 100) ∧
    ¬ category_min_margin none ≤ ((100 : ℚ) - 95) / 95 := by
  constructor
  · unfold margin_validator
    rw [if_neg]
    norm_num [category_min_margin]
  · norm_num [category_min_margin]

/-- C2 (amended): every decision the validator emits either keeps the
strategy's price and satisfies the category margin floor, or is the Hold
override at the current price, fired exactly when the strategy price
fails the floor; the overridden Hold keeps the current price, whose own
margin may itself lie below the floor. -/
theorem margin_validator_floor (ctx : PricingContext) (strat : Strategy) (suggested : ℚ) :
    (margin_validator ctx strat suggested = (strat, suggested) ∧
      category_min_margin ctx.category ≤ (suggested - ctx.cost_price) / ctx.cost_price) ∨
    (margin_validator ctx strat suggested = (Strategy.hold, ctx.current_price) ∧
      ¬ category_min_margin ctx.category ≤ (suggested - ctx.cost_price) / ctx.cost_price) := by
  unfold margin_validator
  split_ifs with h
  · exact Or.inl ⟨rfl, h⟩
  · exact Or.inr ⟨rfl, h⟩
